import Mathlib

/-!
Shallow embedding of the project-scoped file-access subsystem of
claude-code-webui: the file-manager handlers (list / content / download),
the upload stager, and the project-path encoding utilities from
`backend/history/pathUtils.ts`.  Strings are modelled as Lean `String`s
(sequences of Unicode scalar values, matching the JavaScript semantics on
the code-point level for the inputs that occur here); the runtime
(filesystem, home directory, JSON config) is modelled as an explicit
record of functions, and every filesystem access a handler performs is
returned alongside its response.
-/

namespace CCWebui

/- ## JavaScript string primitives, modelled over `String.data` -/

/-- Bool test that the character list `s` starts with `p`. -/
def listStartsWith : List Char → List Char → Bool
  | _, [] => true
  | [], _ :: _ => false
  | c :: cs, d :: ds => c == d && listStartsWith cs ds

/-- Bool test that `sub` occurs as a contiguous run inside the list. -/
def listContainsSub (sub : List Char) : List Char → Bool
  | [] => listStartsWith [] sub
  | c :: rest => listStartsWith (c :: rest) sub || listContainsSub sub rest

/-- Model of JavaScript `s.includes(sub)`. -/
def jsIncludes (s sub : String) : Bool := listContainsSub sub.data s.data

/-- Model of JavaScript `s.startsWith(p)`. -/
def jsStartsWith (s p : String) : Bool := listStartsWith s.data p.data

/-- Model of JavaScript `s.endsWith(p)`. -/
def jsEndsWith (s p : String) : Bool := listStartsWith s.data.reverse p.data.reverse

/-- Model of JavaScript `s.split(sep)` for a one-character separator. -/
def splitOnChar (sep : Char) : List Char → List (List Char)
  | [] => [[]]
  | c :: rest =>
    if c == sep then [] :: splitOnChar sep rest
    else
      match splitOnChar sep rest with
      | [] => [[c]]
      | g :: gs => (c :: g) :: gs

/-- Rejoin groups with `/`, the model of `parts.join("/")`. -/
def joinWithSlash : List (List Char) → List Char
  | [] => []
  | [g] => g
  | g :: g2 :: gs => g ++ '/' :: joinWithSlash (g2 :: gs)

/-- ASCII lower-casing of one character; models `toLowerCase` on the ASCII
extensions looked up in the MIME table. -/
def charToLower (c : Char) : Char :=
  if 'A' ≤ c && c ≤ 'Z' then Char.ofNat (c.toNat + 32) else c

/- ## Pure helpers of `files.ts` (src/unnamed/part_003) -/

/-- Embedding of `getFileExtension`: the substring after the last `.`,
lower-cased; `""` when the filename has no dot. -/
def getFileExtension (filename : String) : String :=
  let groups := splitOnChar '.' filename.data
  if groups.length ≤ 1 then ""
  else String.mk ((groups.getLastD []).map charToLower)

/-- Embedding of the static extension→MIME table of `getMimeType`. -/
def mimeTable : List (String × String) :=
  [("txt", "text/plain"), ("md", "text/markdown"), ("json", "application/json"),
   ("js", "application/javascript"), ("ts", "application/typescript"),
   ("jsx", "application/javascript"), ("tsx", "application/typescript"),
   ("html", "text/html"), ("css", "text/css"), ("xml", "application/xml"),
   ("yaml", "text/yaml"), ("yml", "text/yaml"), ("toml", "text/toml"),
   ("ini", "text/plain"), ("log", "text/plain"),
   ("jpg", "image/jpeg"), ("jpeg", "image/jpeg"), ("png", "image/png"),
   ("gif", "image/gif"), ("bmp", "image/bmp"), ("svg", "image/svg+xml"),
   ("webp", "image/webp"), ("ico", "image/x-icon"),
   ("pdf", "application/pdf"), ("doc", "application/msword"),
   ("docx", "application/vnd.openxmlformats-officedocument.wordprocessingml.document"),
   ("zip", "application/zip"), ("tar", "application/x-tar"), ("gz", "application/gzip"),
   ("mp3", "audio/mpeg"), ("mp4", "video/mp4"), ("avi", "video/x-msvideo"),
   ("mov", "video/quicktime")]

/-- Embedding of `getMimeType`: table lookup, default `application/octet-stream`. -/
def getMimeType (extension : String) : String :=
  match mimeTable.find? (fun kv => kv.1 == extension) with
  | some kv => kv.2
  | none => "application/octet-stream"

/-- Embedding of `isTextFile`. -/
def isTextFile (mimeType : String) : Bool :=
  jsStartsWith mimeType "text/" ||
  mimeType == "application/json" ||
  mimeType == "application/javascript" ||
  mimeType == "application/typescript" ||
  mimeType == "application/xml"

/-- Embedding of `isImageFile`. -/
def isImageFile (mimeType : String) : Bool :=
  jsStartsWith mimeType "image/"

/-- Embedding of `safeResolvePath`: strip leading slashes, split on `/`,
drop segments equal to `""`, `"."`, `".."`, rejoin, append to the base. -/
def safeResolvePath (basePath relativePath : String) : String :=
  let cleanPath := relativePath.data.dropWhile (fun c => c == '/')
  let parts := (splitOnChar '/' cleanPath).filter
    (fun part => part != ([] : List Char) && part != ['.'] && part != ['.', '.'])
  basePath ++ "/" ++ String.mk (joinWithSlash parts)

/-- The content classification performed by `handleFileContent`
(lines 267–295 of `files.ts`), as the pure function of the MIME type and
the byte size it is: the 10 MiB ceiling is tested first with a strict
`>`, then text-like types, then images or anything of at most 1 MiB. -/
inductive ContentClass
  | utf8
  | base64
  | rejectTooLarge
  | rejectUnsupported
deriving DecidableEq, Repr

/-- Embedding of the classification decision of `handleFileContent`. -/
def classifyContent (mimeType : String) (size : Nat) : ContentClass :=
  if size > 10 * 1024 * 1024 then ContentClass.rejectTooLarge
  else if isTextFile mimeType then ContentClass.utf8
  else if isImageFile mimeType || size ≤ 1024 * 1024 then ContentClass.base64
  else ContentClass.rejectUnsupported

/- ## Content-Disposition builder of `handleFileDownload` -/

/-- Printable-ASCII test, the character class `[\x20-\x7E]`. -/
def isPrintableAscii (c : Char) : Bool :=
  0x20 ≤ c.toNat && c.toNat ≤ 0x7E

/-- Embedding of `/[^\x20-\x7E]/.test(filename)`. -/
def hasNonAscii (s : String) : Bool :=
  s.data.any (fun c => !(isPrintableAscii c))

/-- Embedding of `filename.replace(/["\\]/g, "\\$&")`: prefix each quote
or backslash with a backslash. -/
def escapeQuoteBackslash (s : String) : String :=
  String.mk (s.data.foldr
    (fun c acc => if c == '"' || c == '\\' then '\\' :: c :: acc else c :: acc) [])

/-- Embedding of the ASCII fallback
`.replace(/[^\x20-\x7E]/g, "_").replace(/["\\]/g, "_")`. -/
def asciiFallback (s : String) : String :=
  String.mk (((s.data.map (fun c => if !(isPrintableAscii c) then '_' else c)).map
    (fun c => if c == '"' || c == '\\' then '_' else c)))

/-- Characters that `encodeURIComponent` leaves unescaped. -/
def isUriUnreserved (c : Char) : Bool :=
  ('A' ≤ c && c ≤ 'Z') || ('a' ≤ c && c ≤ 'z') || ('0' ≤ c && c ≤ '9') ||
  c == '-' || c == '_' || c == '.' || c == '!' || c == '~' || c == '*' ||
  c.toNat == 39 || c == '(' || c == ')'

/-- UTF-8 bytes of a Unicode scalar value. -/
def utf8Bytes (n : Nat) : List Nat :=
  if n < 0x80 then [n]
  else if n < 0x800 then [0xC0 + n / 0x40, 0x80 + n % 0x40]
  else if n < 0x10000 then
    [0xE0 + n / 0x1000, 0x80 + (n / 0x40) % 0x40, 0x80 + n % 0x40]
  else
    [0xF0 + n / 0x40000, 0x80 + (n / 0x1000) % 0x40, 0x80 + (n / 0x40) % 0x40,
     0x80 + n % 0x40]

/-- Upper-case hexadecimal digit. -/
def hexDigit (n : Nat) : Char :=
  if n < 10 then Char.ofNat (48 + n) else Char.ofNat (55 + n)

/-- Percent-escape of one byte, `%XX` with upper-case hex. -/
def percentByte (b : Nat) : List Char :=
  ['%', hexDigit (b / 16), hexDigit (b % 16)]

/-- Embedding of JavaScript `encodeURIComponent`. -/
def encodeURIComponent (s : String) : String :=
  String.mk (s.data.foldr
    (fun c acc =>
      if isUriUnreserved c then c :: acc
      else (utf8Bytes c.toNat).foldr (fun b a2 => percentByte b ++ a2) acc) [])

/-- Embedding of the Content-Disposition construction of
`handleFileDownload` (lines 379–400): a single escaped `filename=` for
printable-ASCII names, otherwise the underscore fallback plus the
percent-encoded `filename*` parameter. -/
def contentDisposition (filename : String) : String :=
  if hasNonAscii filename then
    "attachment; filename=\"" ++ asciiFallback filename ++
      "\"; filename*=UTF-8''" ++ encodeURIComponent filename
  else
    "attachment; filename=\"" ++ escapeQuoteBackslash filename ++ "\""

/- ## Runtime model -/

/-- One entry yielded by `runtime.readDir`. -/
structure DirEntry where
  name : String
  isFile : Bool
  isDirectory : Bool
deriving DecidableEq, Repr

/-- Result of `runtime.stat`.  `mtime` is kept as the raw millisecond
timestamp; the handlers only thread it through. -/
structure FileStat where
  size : Nat
  isDirectory : Bool
  mtime : Option Nat
deriving DecidableEq, Repr

/-- One filesystem access performed by a handler, in program order. -/
inductive FsAccess
  | accExists (p : String)
  | accStat (p : String)
  | accReadDir (p : String)
  | accReadText (p : String)
  | accReadBin (p : String)
deriving DecidableEq, Repr

/-- The runtime a handler runs against.  Each fallible primitive returns
`Option`; `none` models the call throwing (which the handlers catch).
`parseProjects` models `JSON.parse` followed by the extraction of the keys
of `config.projects`: `none` when parsing throws or the `projects` object
is absent.  `lc` models `String.prototype.localeCompare`, an
environment-dependent three-way comparison. -/
structure RuntimeModel where
  homeDir : Option String
  cwd : String
  readText : String → Option String
  readDir : String → Option (List DirEntry)
  statOf : String → Option FileStat
  readBin : String → Option (List Nat)
  pathExists : String → Bool
  parseProjects : String → Option (List String)
  lc : String → String → Int

/- ## pathUtils.ts -/

/-- The pure encoding transform inside `getEncodedProjectName`
(lines 32–35 of `pathUtils.ts`): strip one trailing `/` (the regex
`/\/$/`), then replace every `/`, `\`, `:` and `.` with `-`. -/
def encodeProjectPath (projectPath : String) : String :=
  let normalizedPath :=
    if jsEndsWith projectPath "/" then String.mk projectPath.data.dropLast
    else projectPath
  String.mk (normalizedPath.data.map
    (fun c => if c == '/' || c == '\\' || c == ':' || c == '.' then '-' else c))

/-- Embedding of `getEncodedProjectName`: returns the encoded form only
when a directory of that name is present under `~/.claude/projects`,
together with the filesystem accesses made. -/
def getEncodedProjectName (rt : RuntimeModel) (projectPath : String) :
    Option String × List FsAccess :=
  match rt.homeDir with
  | none => (none, [])
  | some homeDir =>
    let projectsDir := homeDir ++ "/.claude/projects"
    match rt.readDir projectsDir with
    | none => (none, [FsAccess.accReadDir projectsDir])
    | some entries =>
      let names := (entries.filter (fun e => e.isDirectory)).map (fun e => e.name)
      let expectedEncoded := encodeProjectPath projectPath
      if names.contains expectedEncoded then
        (some expectedEncoded, [FsAccess.accReadDir projectsDir])
      else (none, [FsAccess.accReadDir projectsDir])

/-- Embedding of `validateEncodedProjectName`: nonempty and free of
`< > : " | ? *`, control characters, `/` and `\`. -/
def isDangerousChar (c : Char) : Bool :=
  c == '<' || c == '>' || c == ':' || c == '"' || c == '|' || c == '?' ||
  c == '*' || c.toNat ≤ 0x1f || c == '/' || c == '\\'

/-- Embedding of `validateEncodedProjectName`. -/
def validateEncodedProjectName (encodedName : String) : Bool :=
  if encodedName == "" then false
  else if encodedName.data.any isDangerousChar then false
  else true

/-- The scan over the registry paths inside
`getProjectPathFromEncodedName`: first path whose `getEncodedProjectName`
equals the requested name, accumulating the accesses of each probe. -/
def resolveScan (rt : RuntimeModel) (encodedName : String) :
    List String → Option String × List FsAccess
  | [] => (none, [])
  | p :: rest =>
    let probe := getEncodedProjectName rt p
    if probe.1 == some encodedName then (some p, probe.2)
    else
      let r := resolveScan rt encodedName rest
      (r.1, probe.2 ++ r.2)

/-- Embedding of `getProjectPathFromEncodedName`: read `~/.claude.json`,
take the keys of `config.projects`, return the first whose recomputed
encoded name matches; `none` on any failure. -/
def getProjectPathFromEncodedName (rt : RuntimeModel) (encodedName : String) :
    Option String × List FsAccess :=
  match rt.homeDir with
  | none => (none, [])
  | some homeDir =>
    let claudeConfigPath := homeDir ++ "/.claude.json"
    match rt.readText claudeConfigPath with
    | none => (none, [FsAccess.accReadText claudeConfigPath])
    | some configContent =>
      match rt.parseProjects configContent with
      | none => (none, [FsAccess.accReadText claudeConfigPath])
      | some projects =>
        let r := resolveScan rt encodedName projects
        (r.1, FsAccess.accReadText claudeConfigPath :: r.2)

/- ## The list handler -/

/-- The `type` field of a `FileInfo`, `"directory"` or `"file"` in the
source. -/
inductive FileKind
  | directory
  | file
deriving DecidableEq, Repr

/-- Embedding of the `FileInfo` records built by `handleFilesList`.
`modifiedTime` keeps the raw `mtime` (the source renders it as an ISO
string, a rendering no handler inspects further). -/
structure FileInfo where
  name : String
  path : String
  type : FileKind
  size : Option Nat
  modifiedTime : Option Nat
  extension : Option String
deriving DecidableEq, Repr

/-- The `FileInfo` built for one directory entry, including the
per-entry `stat` fallback of the source (stat throwing yields the
minimal record). -/
def mkFileInfo (rt : RuntimeModel) (targetPath pathParam : String)
    (e : DirEntry) : FileInfo :=
  let fullPath := targetPath ++ "/" ++ e.name
  let relativePath := if pathParam == "" then e.name else pathParam ++ "/" ++ e.name
  match rt.statOf fullPath with
  | some st =>
    { name := e.name
      path := relativePath
      type := if e.isDirectory then FileKind.directory else FileKind.file
      size := if e.isFile then some st.size else none
      modifiedTime := st.mtime
      extension := if e.isFile then some (getFileExtension e.name) else none }
  | none =>
    { name := e.name
      path := relativePath
      type := if e.isDirectory then FileKind.directory else FileKind.file
      size := none
      modifiedTime := none
      extension := none }

/-- The comparator passed to `files.sort`: directories first, then
`localeCompare` on names. -/
def fileCmp (lc : String → String → Int) (a b : FileInfo) : Int :=
  if a.type ≠ b.type then (if a.type = FileKind.directory then -1 else 1)
  else lc a.name b.name

/-- Model of `files.sort(cmp)`: a sort by the comparator.  ECMAScript
guarantees the result is sorted by a consistent comparator (and stable;
the handlers never rely on tie order, so any comparator-sort is a
faithful model). -/
def sortFiles (lc : String → String → Int) (files : List FileInfo) : List FileInfo :=
  List.insertionSort (fun a b => fileCmp lc a b ≤ 0) files

/-- Responses of `handleFilesList`. -/
inductive FilesListOut
  | ok (files : List FileInfo) (currentPath : String)
  | err (status : Nat) (msg : String)
deriving DecidableEq, Repr

/-- Embedding of `handleFilesList`.  The second component is the list of
filesystem accesses in program order.  A thrown `readDir` reaches the
outer catch; its runtime-supplied message is abstracted to the fallback
text of the catch. -/
def handleFilesList (rt : RuntimeModel)
    (encodedProjectName pathQuery : Option String) :
    FilesListOut × List FsAccess :=
  match encodedProjectName with
  | none => (FilesListOut.err 400 "Project name is required", [])
  | some name =>
    if name == "" then (FilesListOut.err 400 "Project name is required", [])
    else
      let resolveOps := (getProjectPathFromEncodedName rt name).2
      match (getProjectPathFromEncodedName rt name).1 with
      | none => (FilesListOut.err 404 "Project not found", resolveOps)
      | some projectPath =>
        let pathParam := match pathQuery with | none => "" | some q => q
        if jsIncludes pathParam ".." || jsStartsWith pathParam "/" then
          (FilesListOut.err 403 "Access denied: Invalid path", resolveOps)
        else
          let rootPath := projectPath
          let targetPath :=
            if pathParam == "" then rootPath else safeResolvePath rootPath pathParam
          let ops1 := resolveOps ++ [FsAccess.accExists targetPath]
          if !(rt.pathExists targetPath) then
            (FilesListOut.ok [] pathParam, ops1)
          else
            match rt.readDir targetPath with
            | none =>
              (FilesListOut.err 500 "Failed to list files",
               ops1 ++ [FsAccess.accReadDir targetPath])
            | some entries =>
              let statOps := entries.map
                (fun e => FsAccess.accStat (targetPath ++ "/" ++ e.name))
              let files := entries.map (mkFileInfo rt targetPath pathParam)
              (FilesListOut.ok (sortFiles rt.lc files) pathParam,
               ops1 ++ [FsAccess.accReadDir targetPath] ++ statOps)

/- ## The content handler -/

/-- The base64 alphabet of `btoa`. -/
def base64Chars : List Char :=
  "ABCDEFGHIJKLMNOPQRSTUVWXYZabcdefghijklmnopqrstuvwxyz0123456789+/".data

/-- One base64 digit. -/
def b64char (n : Nat) : Char := base64Chars.getD n 'A'

/-- Model of `btoa(String.fromCharCode(...bytes))`: standard base64 with
padding over the byte list. -/
def base64Encode : List Nat → List Char
  | [] => []
  | [a] => [b64char (a / 4), b64char (a % 4 * 16), '=', '=']
  | [a, b] => [b64char (a / 4), b64char (a % 4 * 16 + b / 16), b64char (b % 16 * 4), '=']
  | a :: b :: c :: rest =>
    b64char (a / 4) :: b64char (a % 4 * 16 + b / 16) ::
      b64char (b % 16 * 4 + c / 64) :: b64char (c % 64) :: base64Encode rest

/-- Responses of `handleFileContent`. -/
inductive FileContentOut
  | ok (content : String) (mimeType : String) (encoding : String) (size : Nat)
  | err (status : Nat) (msg : String)
deriving DecidableEq, Repr

/-- Embedding of `handleFileContent`.  Thrown reads reach the outer
catch; their runtime-supplied messages are abstracted to the fallback
text of the catch. -/
def handleFileContent (rt : RuntimeModel)
    (encodedProjectName pathParam : Option String) :
    FileContentOut × List FsAccess :=
  match encodedProjectName, pathParam with
  | none, _ => (FileContentOut.err 400 "Project name and file path are required", [])
  | _, none => (FileContentOut.err 400 "Project name and file path are required", [])
  | some name, some filePath =>
    if name == "" || filePath == "" then
      (FileContentOut.err 400 "Project name and file path are required", [])
    else
      let resolveOps := (getProjectPathFromEncodedName rt name).2
      match (getProjectPathFromEncodedName rt name).1 with
      | none => (FileContentOut.err 404 "Project not found", resolveOps)
      | some projectPath =>
        if jsIncludes filePath ".." || jsStartsWith filePath "/" then
          (FileContentOut.err 403 "Access denied: Invalid file path", resolveOps)
        else
          let fullPath := safeResolvePath projectPath filePath
          let ops1 := resolveOps ++ [FsAccess.accExists fullPath]
          if !(rt.pathExists fullPath) then
            (FileContentOut.err 404 "File not found", ops1)
          else
            match rt.statOf fullPath with
            | none =>
              (FileContentOut.err 500 "Failed to read file",
               ops1 ++ [FsAccess.accStat fullPath])
            | some st =>
              let ops2 := ops1 ++ [FsAccess.accStat fullPath]
              if st.isDirectory then
                (FileContentOut.err 400 "Cannot read directory content", ops2)
              else if st.size > 10 * 1024 * 1024 then
                (FileContentOut.err 413 "File too large to preview", ops2)
              else
                let mimeType := getMimeType (getFileExtension filePath)
                if isTextFile mimeType then
                  match rt.readText fullPath with
                  | none =>
                    (FileContentOut.err 500 "Failed to read file",
                     ops2 ++ [FsAccess.accReadText fullPath])
                  | some text =>
                    (FileContentOut.ok text mimeType "utf-8" st.size,
                     ops2 ++ [FsAccess.accReadText fullPath])
                else if isImageFile mimeType || st.size ≤ 1024 * 1024 then
                  match rt.readBin fullPath with
                  | none =>
                    (FileContentOut.err 500 "Failed to read file",
                     ops2 ++ [FsAccess.accReadBin fullPath])
                  | some buffer =>
                    (FileContentOut.ok (String.mk (base64Encode buffer)) mimeType
                       "base64" st.size,
                     ops2 ++ [FsAccess.accReadBin fullPath])
                else
                  (FileContentOut.err 415 "File type not supported for preview", ops2)

/- ## The download handler -/

/-- The `/download`-suffix strip at the top of `handleFileDownload`:
`pathParam.slice(0, -9)` when the parameter ends in `"/download"`. -/
def stripDownloadSuffix (p : String) : String :=
  if jsEndsWith p "/download" then String.mk (p.data.take (p.data.length - 9))
  else p

/-- Responses of `handleFileDownload`; a success carries the raw bytes
and the three headers set by the source. -/
inductive DownloadOut
  | ok (bytes : List Nat) (contentType : String) (disposition : String)
      (contentLength : Nat)
  | err (status : Nat) (msg : String)
deriving DecidableEq, Repr

/-- Embedding of `handleFileDownload`.  Thrown reads reach the outer
catch; their runtime-supplied messages are abstracted to the fallback
text of the catch. -/
def handleFileDownload (rt : RuntimeModel)
    (encodedProjectName pathParam : Option String) :
    DownloadOut × List FsAccess :=
  match encodedProjectName, pathParam with
  | none, _ => (DownloadOut.err 400 "Project name and file path are required", [])
  | _, none => (DownloadOut.err 400 "Project name and file path are required", [])
  | some name, some rawPath =>
    if name == "" || rawPath == "" then
      (DownloadOut.err 400 "Project name and file path are required", [])
    else
      let filePath := stripDownloadSuffix rawPath
      let resolveOps := (getProjectPathFromEncodedName rt name).2
      match (getProjectPathFromEncodedName rt name).1 with
      | none => (DownloadOut.err 404 "Project not found", resolveOps)
      | some projectPath =>
        if jsIncludes filePath ".." || jsStartsWith filePath "/" then
          (DownloadOut.err 403 "Access denied: Invalid file path", resolveOps)
        else
          let fullPath := safeResolvePath projectPath filePath
          let ops1 := resolveOps ++ [FsAccess.accExists fullPath]
          if !(rt.pathExists fullPath) then
            (DownloadOut.err 404 "File not found", ops1)
          else
            match rt.statOf fullPath with
            | none =>
              (DownloadOut.err 500 "Failed to download file",
               ops1 ++ [FsAccess.accStat fullPath])
            | some st =>
              let ops2 := ops1 ++ [FsAccess.accStat fullPath]
              if st.isDirectory then
                (DownloadOut.err 400 "Cannot download directory", ops2)
              else
                match rt.readBin fullPath with
                | none =>
                  (DownloadOut.err 500 "Failed to download file",
                   ops2 ++ [FsAccess.accReadBin fullPath])
                | some buffer =>
                  let lastSeg := (splitOnChar '/' filePath.data).getLastD []
                  let filename :=
                    if lastSeg == ([] : List Char) then "download"
                    else String.mk lastSeg
                  let mimeType := getMimeType (getFileExtension filename)
                  (DownloadOut.ok buffer mimeType (contentDisposition filename)
                     buffer.length,
                   ops2 ++ [FsAccess.accReadBin fullPath])

/- ## The upload handler -/

/-- The filename sanitization of `handleUpload`:
`file.name.replace(/[^a-zA-Z0-9.-]/g, "_")`. -/
def sanitizeFileName (s : String) : String :=
  String.mk (s.data.map (fun c =>
    if ('a' ≤ c && c ≤ 'z') || ('A' ≤ c && c ≤ 'Z') || ('0' ≤ c && c ≤ '9') ||
       c == '.' || c == '-' then c else '_'))

/-- The character-count variant of JavaScript `s.substring(n)` used by
`handleUpload` (all paths involved are built from the inputs by
concatenation, so code-unit and code-point counting agree whenever the
working directory is free of surrogate pairs). -/
def jsSubstringFrom (s : String) (n : Nat) : String := String.mk (s.data.drop n)

/-- Responses of `handleUpload`. -/
inductive UploadOut
  | ok (filePath : String)
  | err (status : Nat) (msg : String)
deriving DecidableEq, Repr

/-- Embedding of `handleUpload`.  `file` is the multipart file as
(original name, bytes); `timestamp` is `Date.now()`.  The second
component lists the binary writes performed as (path, bytes); the
idempotent `mkdir` calls are not recorded. -/
def handleUpload (rt : RuntimeModel) (file : Option (String × List Nat))
    (sessionId workingDirectory : Option String) (timestamp : Nat) :
    UploadOut × List (String × List Nat) :=
  match file with
  | none => (UploadOut.err 400 "No file provided", [])
  | some (origName, bytes) =>
    match sessionId with
    | none => (UploadOut.err 400 "No session ID provided", [])
    | some sid =>
      if sid == "" then (UploadOut.err 400 "No session ID provided", [])
      else
        let baseDir :=
          match workingDirectory with
          | none => rt.cwd
          | some w => if w == "" then rt.cwd else w
        let tempDir := baseDir ++ "/.claude-temp"
        let sessionDir := tempDir ++ "/" ++ sid
        let fileName := toString timestamp ++ "_" ++ sanitizeFileName origName
        let filePath := sessionDir ++ "/" ++ fileName
        let relativePath :=
          if jsStartsWith filePath (baseDir ++ "/") then
            jsSubstringFrom filePath (baseDir.length + 1)
          else filePath
        (UploadOut.ok relativePath, [(filePath, bytes)])

/- ## Shared helper lemmas -/

/-- A list starts with any of its own initial segments. -/
lemma listStartsWith_append (p r : List Char) : listStartsWith (p ++ r) p = true := by
  induction p with
  | nil => simp [listStartsWith]
  | cons c cs ih => simp [listStartsWith, ih]

/-- Dropping an initial segment and one separator. -/
lemma drop_cons_append (l r : List Char) (c : Char) :
    (l ++ c :: r).drop (l.length + 1) = r := by
  induction l with
  | nil => rfl
  | cons d ds ih =>
    simp only [List.cons_append, List.length_cons, List.drop_succ_cons]
    exact ih

/-- Strings with equal character lists are equal. -/
lemma stringDataExt {a b : String} (h : a.data = b.data) : a = b := by
  cases a; cases b; exact congrArg String.mk h

/-- The character list of the one-character string `"/"`. -/
lemma slashData : ("/" : String).data = ['/'] := by decide

/-- A traversal-flagged path is nonempty. -/
lemma badPath_ne_empty {p : String}
    (h : (jsIncludes p ".." || jsStartsWith p "/") = true) : (p == "") = false := by
  rcases eq_or_ne p "" with rfl | hne
  · exact absurd h (by decide)
  · simpa using hne

/-- `s ++ "/" ++ rest` starts with `s ++ "/"`. -/
lemma jsStartsWith_slash_concat (base rest : String) :
    jsStartsWith (base ++ "/" ++ rest) (base ++ "/") = true := by
  simp only [jsStartsWith, String.data_append]
  exact listStartsWith_append _ _

/-- Dropping `base.length + 1` characters of `base ++ "/" ++ rest` leaves `rest`. -/
lemma jsSubstringFrom_slash_concat (base rest : String) :
    jsSubstringFrom (base ++ "/" ++ rest) (base.length + 1) = rest := by
  apply stringDataExt
  simp only [jsSubstringFrom, String.data_append, slashData, List.append_assoc,
    List.singleton_append]
  rw [show (base.length : Nat) = base.data.length from rfl, drop_cons_append]

/- ## Shared concrete runtime models for witnesses and counterexamples -/

/-- A runtime where the registry holds the project `/p`, encoded `-p`,
with the encoded directory present under `~/.claude/projects`, and where
the path `/p/` exists as a directory on disk. -/
def rtHappy : RuntimeModel where
  homeDir := some "/h"
  cwd := "/cwd"
  readText := fun p => if p == "/h/.claude.json" then some "cfg" else none
  readDir := fun p =>
    if p == "/h/.claude/projects" then some [⟨"-p", false, true⟩]
    else if p == "/p/" then some [] else none
  statOf := fun p => if p == "/p/" then some ⟨0, true, none⟩ else none
  readBin := fun _ => none
  pathExists := fun p => p == "/p/"
  parseProjects := fun _ => some ["/p"]
  lc := fun _ _ => 0

/-- A runtime whose registry holds `/a` but whose `~/.claude/projects`
directory holds no entry at all. -/
def rtNoDir : RuntimeModel where
  homeDir := some "/h"
  cwd := "/cwd"
  readText := fun p => if p == "/h/.claude.json" then some "cfg" else none
  readDir := fun p => if p == "/h/.claude/projects" then some [] else none
  statOf := fun _ => none
  readBin := fun _ => none
  pathExists := fun _ => false
  parseProjects := fun _ => some ["/a"]
  lc := fun _ _ => 0

/-- A runtime with a listable project directory `/p` holding a
subdirectory and two files, whose locale comparison orders names by
length. -/
def rtList : RuntimeModel where
  homeDir := some "/h"
  cwd := "/cwd"
  readText := fun p => if p == "/h/.claude.json" then some "cfg" else none
  readDir := fun p =>
    if p == "/h/.claude/projects" then some [⟨"-p", false, true⟩]
    else if p == "/p" then
      some [⟨"b.txt", true, false⟩, ⟨"a", false, true⟩, ⟨"c.md", true, false⟩]
    else none
  statOf := fun p =>
    if p == "/p/b.txt" then some ⟨10, false, some 5⟩
    else if p == "/p/a" then some ⟨0, true, none⟩
    else none
  readBin := fun _ => none
  pathExists := fun p => p == "/p"
  parseProjects := fun _ => some ["/p"]
  lc := fun a b => (a.length : Int) - (b.length : Int)

/-- The length-difference comparison of `rtList` in closed form. -/
lemma rtList_lc (a b : String) : rtList.lc a b = (a.length : Int) - (b.length : Int) := rfl

/- ## C2 -/

/-- C2: for every root and every raw relative path — including inputs
that would fail the boundary check — the output of `safeResolvePath` is
textually prefixed by the root followed by the separator `/`. -/
theorem safeResolvePath_textually_under_root (root rawPath : String) :
    jsStartsWith (safeResolvePath root rawPath) (root ++ "/") = true := by
  simp only [safeResolvePath, jsStartsWith, String.data_append]
  exact listStartsWith_append _ _

/- ## C3 -/

/-- C3 counterexample: a non-image, non-text file of exactly 10 MiB
(10485760 bytes) is not rejected as too large; the classification takes
the unsupported-type branch (415), because the source tests
`stat.size > maxSize` strictly. -/
theorem classify_at_ten_MiB_not_too_large :
    classifyContent "application/pdf" 10485760 = ContentClass.rejectUnsupported ∧
    classifyContent "application/pdf" 10485760 ≠ ContentClass.rejectTooLarge ∧
    classifyContent "text/plain" 10485760 = ContentClass.utf8 := by decide

/-- C3 amended: classification is the pure function `classifyContent` of
(mimeType, size); the 1 MiB Base64 threshold is inclusive, the 10 MiB
ceiling is strict — only sizes strictly above 10 MiB are rejected 413
(regardless of type), a size of exactly 10 MiB falls through to the type
rules — and the 413 rejection happens on metadata alone, with no content
read access. -/
theorem classify_boundaries (mt mtOther : String) (size : Nat)
    (hnt : isTextFile mt = false) (hni : isImageFile mt = false)
    (hbig : 10 * 1024 * 1024 < size) :
    classifyContent mt (1024 * 1024) = ContentClass.base64 ∧
    classifyContent mtOther size = ContentClass.rejectTooLarge ∧
    classifyContent mt (10 * 1024 * 1024) = ContentClass.rejectUnsupported ∧
    (∀ (rt : RuntimeModel) (name p root : String) (st : FileStat),
      name ≠ "" → p ≠ "" →
      (getProjectPathFromEncodedName rt name).1 = some root →
      (jsIncludes p ".." || jsStartsWith p "/") = false →
      rt.pathExists (safeResolvePath root p) = true →
      rt.statOf (safeResolvePath root p) = some st →
      st.isDirectory = false →
      10 * 1024 * 1024 < st.size →
      handleFileContent rt (some name) (some p) =
        (FileContentOut.err 413 "File too large to preview",
         (getProjectPathFromEncodedName rt name).2 ++
           [FsAccess.accExists (safeResolvePath root p),
            FsAccess.accStat (safeResolvePath root p)])) := by
  refine ⟨?_, ?_, ?_, ?_⟩
  · simp [classifyContent, hnt, hni]
  · simp [classifyContent, hbig]
  · simp [classifyContent, hnt, hni]
  · intro rt name p root st hname hp hres hgood hex hstat hdir hsize
    have hn' : (name == "") = false := by simpa using hname
    have hp' : (p == "") = false := by simpa using hp
    simp [handleFileContent, hn', hp', hres, hgood, hex, hstat, hdir,
      hsize, List.append_assoc]

/-- C3 amended, witness at concrete inputs. -/
theorem classify_boundaries_witness :
    isTextFile "application/pdf" = false ∧ isImageFile "application/pdf" = false ∧
    10 * 1024 * 1024 < 10485761 ∧
    (classifyContent "application/pdf" (1024 * 1024) = ContentClass.base64 ∧
     classifyContent "text/plain" 10485761 = ContentClass.rejectTooLarge ∧
     classifyContent "application/pdf" (10 * 1024 * 1024) = ContentClass.rejectUnsupported) :=
  ⟨by decide, by decide, by decide,
   (classify_boundaries "application/pdf" "text/plain" 10485761
      (by decide) (by decide) (by decide)).1,
   (classify_boundaries "application/pdf" "text/plain" 10485761
      (by decide) (by decide) (by decide)).2.1,
   (classify_boundaries "application/pdf" "text/plain" 10485761
      (by decide) (by decide) (by decide)).2.2.1⟩

/- ## C10 -/

/-- C10 counterexample: the encoder strips exactly one trailing slash,
so for a path that already ends in `/` the claimed equality fails:
`/a//` encodes to `-a-` while `/a/` encodes to `-a`. -/
theorem encode_trailing_slash_counterexample :
    encodeProjectPath "/a/" = "-a" ∧
    encodeProjectPath ("/a/" ++ "/") = "-a-" ∧
    encodeProjectPath ("/a/" ++ "/") ≠ encodeProjectPath "/a/" := by decide

/-- C10 amended: the encoding strips exactly one trailing `/`, so for
every project path `p` that does not itself end in `/`, the encoded form
of `p ++ "/"` equals that of `p`, and `getEncodedProjectName` cannot
distinguish two registry entries that differ only by that trailing
slash. -/
theorem encode_trailing_slash_amended (p : String)
    (h : jsEndsWith p "/" = false) :
    encodeProjectPath (p ++ "/") = encodeProjectPath p ∧
    ∀ rt : RuntimeModel,
      getEncodedProjectName rt (p ++ "/") = getEncodedProjectName rt p := by
  have hEnds : jsEndsWith (p ++ "/") "/" = true := by
    simp [jsEndsWith, String.data_append, slashData, List.reverse_append, listStartsWith]
  have henc : encodeProjectPath (p ++ "/") = encodeProjectPath p := by
    simp [encodeProjectPath, hEnds, h, String.data_append, slashData]
  exact ⟨henc, fun rt => by simp only [getEncodedProjectName, henc]⟩

/-- C10 amended, witness at `p = "/a"`. -/
theorem encode_trailing_slash_amended_witness :
    encodeProjectPath ("/a" ++ "/") = encodeProjectPath "/a" ∧
    getEncodedProjectName rtHappy ("/a" ++ "/") = getEncodedProjectName rtHappy "/a" :=
  ⟨(encode_trailing_slash_amended "/a" (by decide)).1,
   (encode_trailing_slash_amended "/a" (by decide)).2 rtHappy⟩

/- ## C6 -/

/-- C6: the Content-Disposition builder emits, for an all-printable-ASCII
filename, exactly `attachment; filename="<name>"` with embedded quotes
and backslashes backslash-escaped and no `filename*` parameter; for a
name with a non-ASCII character it emits the underscore ASCII fallback
together with `filename*=UTF-8''<percent-encoded original>`; in
particular `résumé.pdf` yields `filename="r_sum_.pdf"` and
`filename*=UTF-8''r%C3%A9sum%C3%A9.pdf`. -/
theorem contentDisposition_spec (filename : String)
    (hascii : ∀ c ∈ filename.data, isPrintableAscii c = true) :
    contentDisposition filename =
      "attachment; filename=\"" ++ escapeQuoteBackslash filename ++ "\"" ∧
    (∀ g : String, hasNonAscii g = true →
      contentDisposition g =
        "attachment; filename=\"" ++ asciiFallback g ++
          "\"; filename*=UTF-8''" ++ encodeURIComponent g) ∧
    contentDisposition "résumé.pdf" =
      "attachment; filename=\"r_sum_.pdf\"; filename*=UTF-8''r%C3%A9sum%C3%A9.pdf" := by
  refine ⟨?_, ?_, by decide⟩
  · have h : hasNonAscii filename = false := by
      simp only [hasNonAscii, List.any_eq_false]
      intro c hc
      simp [hascii c hc]
    simp [contentDisposition, h]
  · intro g hg
    simp [contentDisposition, hg]

/-- C6 witness at `plain.txt`. -/
theorem contentDisposition_spec_witness :
    (∀ c ∈ ("plain.txt" : String).data, isPrintableAscii c = true) ∧
    contentDisposition "plain.txt" =
      "attachment; filename=\"" ++ escapeQuoteBackslash "plain.txt" ++ "\"" :=
  ⟨by decide, (contentDisposition_spec "plain.txt" (by decide)).1⟩

/- ## C1 -/

/-- C1 counterexample: a List request whose path contains `..` is indeed
answered 403, but only after the project-name resolution has already
read the filesystem (`~/.claude.json` and `~/.claude/projects`), so the
access log of the call is not empty — the claim's "no exists/stat/read
call is performed" fails. -/
theorem traversal_reject_after_registry_reads :
    jsIncludes "../x" ".." = true ∧
    (handleFilesList rtHappy (some "-p") (some "../x")).1 =
      FilesListOut.err 403 "Access denied: Invalid path" ∧
    (handleFilesList rtHappy (some "-p") (some "../x")).2 =
      [FsAccess.accReadText "/h/.claude.json",
       FsAccess.accReadDir "/h/.claude/projects"] ∧
    (handleFilesList rtHappy (some "-p") (some "../x")).2 ≠ [] := by decide

/-- C1 amended: when the project name resolves, a List, ReadContent or
Download call whose relative path (for Download: after the
`/download`-suffix strip) contains `..` or begins with `/` returns 403,
and its only filesystem accesses are the registry reads of project-name
resolution — no exists/stat/readDir/read of any other path. -/
theorem traversal_reject_amended (rt : RuntimeModel) (name p root : String)
    (hname : name ≠ "")
    (hres : (getProjectPathFromEncodedName rt name).1 = some root)
    (hbad : (jsIncludes p ".." || jsStartsWith p "/") = true)
    (hbadStripped :
      (jsIncludes (stripDownloadSuffix p) ".." ||
       jsStartsWith (stripDownloadSuffix p) "/") = true) :
    handleFilesList rt (some name) (some p) =
      (FilesListOut.err 403 "Access denied: Invalid path",
       (getProjectPathFromEncodedName rt name).2) ∧
    handleFileContent rt (some name) (some p) =
      (FileContentOut.err 403 "Access denied: Invalid file path",
       (getProjectPathFromEncodedName rt name).2) ∧
    handleFileDownload rt (some name) (some p) =
      (DownloadOut.err 403 "Access denied: Invalid file path",
       (getProjectPathFromEncodedName rt name).2) := by
  have hn' : (name == "") = false := by simpa using hname
  have hp' : (p == "") = false := badPath_ne_empty hbad
  refine ⟨?_, ?_, ?_⟩
  · simp [handleFilesList, hn', hres, hbad]
  · simp [handleFileContent, hn', hp', hres, hbad]
  · simp [handleFileDownload, hn', hp', hres, hbadStripped]

/-- C1 amended, witness at path `..` against `rtHappy`. -/
theorem traversal_reject_amended_witness :
    handleFilesList rtHappy (some "-p") (some "..") =
      (FilesListOut.err 403 "Access denied: Invalid path",
       (getProjectPathFromEncodedName rtHappy "-p").2) ∧
    handleFileContent rtHappy (some "-p") (some "..") =
      (FileContentOut.err 403 "Access denied: Invalid file path",
       (getProjectPathFromEncodedName rtHappy "-p").2) ∧
    handleFileDownload rtHappy (some "-p") (some "..") =
      (DownloadOut.err 403 "Access denied: Invalid file path",
       (getProjectPathFromEncodedName rtHappy "-p").2) :=
  traversal_reject_amended rtHappy "-p" ".." "/p"
    (by decide) (by decide) (by decide) (by decide)

/- ## C4 -/

/-- C4 counterexample: `na?me` contains `?`, so the validator classifies
it unsafe, yet a List request with that name is not rejected 403: the
handler proceeds to project resolution (reading the registry) and
answers 404. -/
theorem unsafe_name_not_rejected :
    validateEncodedProjectName "na?me" = false ∧
    (handleFilesList rtHappy (some "na?me") (some "")).1 =
      FilesListOut.err 404 "Project not found" ∧
    FsAccess.accReadText "/h/.claude.json" ∈
      (handleFilesList rtHappy (some "na?me") (some "")).2 := by decide

/-- C4 amended: `validateEncodedProjectName` does classify an empty name
or one containing `< > : " | ? *`, a control character, `/` or `\` as
unsafe, but the file handlers never call it: an empty name is rejected
400 as missing, and a nonempty unsafe name proceeds to project
resolution, yielding 404 when no registry project matches. -/
theorem unsafe_name_amended (rt : RuntimeModel) (name : String) (pq : Option String)
    (hdanger : name = "" ∨ name.data.any isDangerousChar = true) :
    validateEncodedProjectName name = false ∧
    (handleFilesList rt (some "") pq).1 =
      FilesListOut.err 400 "Project name is required" ∧
    (handleFileContent rt (some "") pq).1 =
      FileContentOut.err 400 "Project name and file path are required" ∧
    (handleFileDownload rt (some "") pq).1 =
      DownloadOut.err 400 "Project name and file path are required" ∧
    (name ≠ "" → (getProjectPathFromEncodedName rt name).1 = none →
      ∀ q : String, q ≠ "" →
        (handleFilesList rt (some name) (some q)).1 =
          FilesListOut.err 404 "Project not found" ∧
        (handleFileContent rt (some name) (some q)).1 =
          FileContentOut.err 404 "Project not found" ∧
        (handleFileDownload rt (some name) (some q)).1 =
          DownloadOut.err 404 "Project not found") := by
  refine ⟨?_, ?_, ?_, ?_, ?_⟩
  · rcases hdanger with rfl | hany
    · decide
    · simp [validateEncodedProjectName, hany]
  · simp [handleFilesList]
  · rcases pq with _ | q <;> simp [handleFileContent]
  · rcases pq with _ | q <;> simp [handleFileDownload]
  · intro hne hresNone q hq
    have hn' : (name == "") = false := by simpa using hne
    have hq' : (q == "") = false := by simpa using hq
    refine ⟨?_, ?_, ?_⟩
    · simp [handleFilesList, hn', hresNone]
    · simp [handleFileContent, hn', hq', hresNone]
    · simp [handleFileDownload, hn', hq', hresNone]

/-- C4 amended, witness at name `na?me` against `rtHappy`. -/
theorem unsafe_name_amended_witness :
    validateEncodedProjectName "na?me" = false ∧
    (handleFilesList rtHappy (some "na?me") (some "x")).1 =
      FilesListOut.err 404 "Project not found" :=
  ⟨(unsafe_name_amended rtHappy "na?me" (some "x") (Or.inr (by decide))).1,
   ((unsafe_name_amended rtHappy "na?me" (some "x") (Or.inr (by decide))).2.2.2.2
      (by decide) (by decide) "x" (by decide)).1⟩

/- ## C5 -/

/-- The registry scan returns the first path whose probe matches. -/
lemma resolveScan_fst (rt : RuntimeModel) (n : String) :
    ∀ ps : List String, (resolveScan rt n ps).1 =
      ps.find? (fun q => (getEncodedProjectName rt q).1 == some n)
  | [] => rfl
  | p :: rest => by
    simp only [resolveScan, List.find?]
    cases h : (getEncodedProjectName rt p).1 == some n <;>
      simp [h, resolveScan_fst rt n rest]

/-- C5 counterexample: the registry holds `/a`, whose recomputed encoded
form is exactly `-a`, yet `resolve("-a")` returns NotFound because
`~/.claude/projects` holds no directory named `-a` — the claim's "first
registry project path whose recomputed encoded form equals encodedName"
is not returned. -/
theorem resolve_requires_projects_dir :
    encodeProjectPath "/a" = "-a" ∧
    rtNoDir.parseProjects "cfg" = some ["/a"] ∧
    (getProjectPathFromEncodedName rtNoDir "-a").1 = none := by decide

/-- C5 amended: when the home directory, the registry file and its
`projects` object are all available, `resolve(encodedName)` returns the
first registry path whose `getEncodedProjectName` probe yields exactly
`encodedName`, and a probe succeeds precisely when the recomputed
encoded form equals `encodedName` AND that name is present as a
directory of `~/.claude/projects`; when the home directory is absent the
result is NotFound. -/
theorem resolve_first_match_amended (rt : RuntimeModel)
    (encodedName home configContent : String) (projects : List String)
    (hh : rt.homeDir = some home)
    (hc : rt.readText (home ++ "/.claude.json") = some configContent)
    (hp : rt.parseProjects configContent = some projects) :
    (getProjectPathFromEncodedName rt encodedName).1 =
      projects.find? (fun q => (getEncodedProjectName rt q).1 == some encodedName) ∧
    (∀ q : String,
      ((getEncodedProjectName rt q).1 == some encodedName) = true ↔
        (encodeProjectPath q = encodedName ∧
         ∃ entries : List DirEntry,
           rt.readDir (home ++ "/.claude/projects") = some entries ∧
           ((entries.filter (fun e => e.isDirectory)).map
             (fun e => e.name)).contains encodedName = true)) ∧
    (∀ rt2 : RuntimeModel, rt2.homeDir = none →
      (getProjectPathFromEncodedName rt2 encodedName).1 = none) := by
  refine ⟨?_, ?_, ?_⟩
  · simp [getProjectPathFromEncodedName, hh, hc, hp, resolveScan_fst]
  · intro q
    simp only [getEncodedProjectName, hh]
    cases hd : rt.readDir (home ++ "/.claude/projects") with
    | none => simp
    | some entries =>
      by_cases hcont :
        ((entries.filter (fun e => e.isDirectory)).map (fun e => e.name)).contains
          (encodeProjectPath q) = true
      · simp only [hcont, if_pos]
        constructor
        · intro hbeq
          have heq : encodeProjectPath q = encodedName := by simpa using hbeq
          subst heq
          exact ⟨rfl, entries, rfl, hcont⟩
        · rintro ⟨heq, -⟩
          simp [heq]
      · simp only [Bool.not_eq_true] at hcont
        simp only [hcont, if_neg, Bool.false_eq_true]
        constructor
        · intro hbeq
          exact absurd hbeq (by simp)
        · rintro ⟨heq, entries2, hent, hc2⟩
          cases hent
          rw [heq] at hcont
          rw [hcont] at hc2
          cases hc2
  · intro rt2 h2
    simp [getProjectPathFromEncodedName, h2]

/-- C5 amended, witness against `rtHappy`. -/
theorem resolve_first_match_amended_witness :
    (getProjectPathFromEncodedName rtHappy "-p").1 =
      (["/p"] : List String).find?
        (fun q => (getEncodedProjectName rtHappy q).1 == some "-p") ∧
    (getProjectPathFromEncodedName rtHappy "-p").1 = some "/p" :=
  ⟨(resolve_first_match_amended rtHappy "-p" "/h" "cfg" ["/p"]
      rfl (by decide) (by decide)).1,
   by decide⟩

/- ## C7 -/

/-- C7: when the project resolves, the path passes the boundary check
and the resolved target directory does not exist, List responds with the
success payload `{files: [], currentPath: p}`, echoing the requested
path unchanged — not an error. -/
theorem list_nonexistent_dir_empty (rt : RuntimeModel) (name p root : String)
    (hname : name ≠ "")
    (hres : (getProjectPathFromEncodedName rt name).1 = some root)
    (hgood : (jsIncludes p ".." || jsStartsWith p "/") = false)
    (hne : rt.pathExists (if p == "" then root else safeResolvePath root p) = false) :
    (handleFilesList rt (some name) (some p)).1 = FilesListOut.ok [] p := by
  have hn' : (name == "") = false := by simpa using hname
  have hne' : rt.pathExists (if p = "" then root else safeResolvePath root p) = false := by
    simpa using hne
  simp [handleFilesList, hn', hres, hgood, hne']

/-- C7 witness: listing the missing subdirectory `x` of `/p`. -/
theorem list_nonexistent_dir_empty_witness :
    (handleFilesList rtHappy (some "-p") (some "x")).1 = FilesListOut.ok [] "x" :=
  list_nonexistent_dir_empty rtHappy "-p" "x" "/p"
    (by decide) (by decide) (by decide) (by decide)

/- ## C9 -/

/-- The staged absolute path regrouped around `base ++ "/"`. -/
lemma uploadPath_eq (base sid fn : String) :
    base ++ "/.claude-temp" ++ "/" ++ sid ++ "/" ++ fn =
      base ++ "/" ++ (".claude-temp" ++ "/" ++ sid ++ "/" ++ fn) := by
  apply stringDataExt
  have h1 : ("/.claude-temp" : String).data = '/' :: (".claude-temp" : String).data := by
    decide
  simp [String.data_append, h1, slashData, List.append_assoc]

/-- C9: an upload carrying a file and a nonempty session id stages the
bytes at `<workingDirectory or cwd>/.claude-temp/<sessionId>/<unixMillis>_
<sanitized name>` (sanitization per `sanitizeFileName`) and returns that
path relative to the working directory. -/
theorem upload_stages_and_returns_relative (rt : RuntimeModel)
    (origName : String) (bytes : List Nat) (sid w : String) (ts : Nat)
    (hsid : sid ≠ "") (hw : w ≠ "") :
    handleUpload rt (some (origName, bytes)) (some sid) (some w) ts =
      (UploadOut.ok
        (".claude-temp" ++ "/" ++ sid ++ "/" ++
          (toString ts ++ "_" ++ sanitizeFileName origName)),
       [(w ++ "/" ++ (".claude-temp" ++ "/" ++ sid ++ "/" ++
          (toString ts ++ "_" ++ sanitizeFileName origName)), bytes)]) ∧
    handleUpload rt (some (origName, bytes)) (some sid) none ts =
      (UploadOut.ok
        (".claude-temp" ++ "/" ++ sid ++ "/" ++
          (toString ts ++ "_" ++ sanitizeFileName origName)),
       [(rt.cwd ++ "/" ++ (".claude-temp" ++ "/" ++ sid ++ "/" ++
          (toString ts ++ "_" ++ sanitizeFileName origName)), bytes)]) := by
  have hs' : (sid == "") = false := by simpa using hsid
  have hw' : (w == "") = false := by simpa using hw
  constructor
  · simp only [handleUpload, hs', hw', Bool.false_eq_true, if_false,
      uploadPath_eq, jsStartsWith_slash_concat, if_true,
      jsSubstringFrom_slash_concat]
  · simp only [handleUpload, hs', Bool.false_eq_true, if_false,
      uploadPath_eq, jsStartsWith_slash_concat, if_true,
      jsSubstringFrom_slash_concat]

/-- C9 witness: a concrete upload with a space and a bang in the name. -/
theorem upload_stages_and_returns_relative_witness :
    handleUpload rtHappy (some ("a b!.txt", [7, 8])) (some "s1") (some "/w") 99 =
      (UploadOut.ok
        (".claude-temp" ++ "/" ++ "s1" ++ "/" ++
          (toString 99 ++ "_" ++ sanitizeFileName "a b!.txt")),
       [("/w" ++ "/" ++ (".claude-temp" ++ "/" ++ "s1" ++ "/" ++
          (toString 99 ++ "_" ++ sanitizeFileName "a b!.txt")), [7, 8])]) ∧
    handleUpload rtHappy (some ("a b!.txt", [7, 8])) (some "s1") none 99 =
      (UploadOut.ok
        (".claude-temp" ++ "/" ++ "s1" ++ "/" ++
          (toString 99 ++ "_" ++ sanitizeFileName "a b!.txt")),
       [(rtHappy.cwd ++ "/" ++ (".claude-temp" ++ "/" ++ "s1" ++ "/" ++
          (toString 99 ++ "_" ++ sanitizeFileName "a b!.txt")), [7, 8])]) :=
  upload_stages_and_returns_relative rtHappy "a b!.txt" [7, 8] "s1" "/w" 99
    (by decide) (by decide)

/- ## C8 -/

/-- Transitivity of the sort comparator, given a transitive locale
comparison. -/
lemma fileCmp_trans (lc : String → String → Int)
    (hT : ∀ a b c : String, lc a b ≤ 0 → lc b c ≤ 0 → lc a c ≤ 0)
    {a b c : FileInfo} (hab : fileCmp lc a b ≤ 0) (hbc : fileCmp lc b c ≤ 0) :
    fileCmp lc a c ≤ 0 := by
  cases ha : a.type <;> cases hb : b.type <;> cases hc2 : c.type <;>
    simp_all [fileCmp] <;>
    exact hT _ _ _ hab hbc

/-- Totality of the sort comparator, given a total locale comparison. -/
lemma fileCmp_total (lc : String → String → Int)
    (hTot : ∀ a b : String, lc a b ≤ 0 ∨ lc b a ≤ 0) (a b : FileInfo) :
    fileCmp lc a b ≤ 0 ∨ fileCmp lc b a ≤ 0 := by
  cases ha : a.type <;> cases hb : b.type <;> simp_all [fileCmp]

/-- The sort model produces a comparator-sorted list. -/
lemma sortFiles_pairwise (lc : String → String → Int)
    (hT : ∀ a b c : String, lc a b ≤ 0 → lc b c ≤ 0 → lc a c ≤ 0)
    (hTot : ∀ a b : String, lc a b ≤ 0 ∨ lc b a ≤ 0) (l : List FileInfo) :
    (sortFiles lc l).Pairwise (fun a b => fileCmp lc a b ≤ 0) := by
  haveI : IsTotal FileInfo (fun a b => fileCmp lc a b ≤ 0) :=
    ⟨fileCmp_total lc hTot⟩
  haveI : IsTrans FileInfo (fun a b => fileCmp lc a b ≤ 0) :=
    ⟨fun _ _ _ => fileCmp_trans lc hT⟩
  exact List.sorted_insertionSort _ l

/-- A comparator-sorted pair never places a file before a directory, and
orders names within a kind by the locale comparison. -/
lemma fileCmp_le_imp (lc : String → String → Int) {a b : FileInfo}
    (h : fileCmp lc a b ≤ 0) :
    ¬(a.type = FileKind.file ∧ b.type = FileKind.directory) ∧
    (a.type = b.type → lc a.name b.name ≤ 0) := by
  constructor
  · rintro ⟨haf, hbd⟩
    simp [fileCmp, haf, hbd] at h
  · intro heq
    simpa [fileCmp, heq] using h

/-- Every successful List response is the empty list or an image of the
sort model. -/
lemma handleFilesList_ok_shape (rt : RuntimeModel) (n q : Option String)
    (files : List FileInfo) (cur : String)
    (hok : (handleFilesList rt n q).1 = FilesListOut.ok files cur) :
    files = [] ∨ ∃ l : List FileInfo, files = sortFiles rt.lc l := by
  unfold handleFilesList at hok
  rcases n with _ | name
  · cases hok
  · simp only at hok
    repeat' split at hok
    all_goals simp at hok
    all_goals first
      | exact Or.inl hok.1
      | exact Or.inr ⟨_, hok.1⟩
      | exact Or.inl hok.1.symm
      | exact Or.inr ⟨_, hok.1.symm⟩

/-- C8: in every file list returned by List, every directory entry
precedes every file entry, and within each kind the names ascend in the
locale comparison — provided that comparison is transitive and total, as
a consistent `localeCompare` is. -/
theorem list_sorted_dirs_first (rt : RuntimeModel)
    (hT : ∀ a b c : String, rt.lc a b ≤ 0 → rt.lc b c ≤ 0 → rt.lc a c ≤ 0)
    (hTot : ∀ a b : String, rt.lc a b ≤ 0 ∨ rt.lc b a ≤ 0)
    (n q : Option String) (files : List FileInfo) (cur : String)
    (hok : (handleFilesList rt n q).1 = FilesListOut.ok files cur) :
    files.Pairwise (fun a b =>
      ¬(a.type = FileKind.file ∧ b.type = FileKind.directory) ∧
      (a.type = b.type → rt.lc a.name b.name ≤ 0)) := by
  rcases handleFilesList_ok_shape rt n q files cur hok with rfl | ⟨l, rfl⟩
  · exact List.Pairwise.nil
  · exact (sortFiles_pairwise rt.lc hT hTot l).imp
      (fun h => fileCmp_le_imp rt.lc h)

/-- C8 witness: a concrete listing of `/p` under `rtList`, whose locale
comparison orders names by length. -/
theorem list_sorted_dirs_first_witness :
    (handleFilesList rtList (some "-p") none).1 =
      FilesListOut.ok
        [⟨"a", "a", FileKind.directory, none, none, none⟩,
         ⟨"c.md", "c.md", FileKind.file, none, none, none⟩,
         ⟨"b.txt", "b.txt", FileKind.file, some 10, some 5, some "txt"⟩] "" ∧
    ([⟨"a", "a", FileKind.directory, none, none, none⟩,
      ⟨"c.md", "c.md", FileKind.file, none, none, none⟩,
      ⟨"b.txt", "b.txt", FileKind.file, some 10, some 5, some "txt"⟩] :
        List FileInfo).Pairwise (fun a b =>
      ¬(a.type = FileKind.file ∧ b.type = FileKind.directory) ∧
      (a.type = b.type → rtList.lc a.name b.name ≤ 0)) :=
  ⟨by decide,
   list_sorted_dirs_first rtList
     (fun a b c h1 h2 => by
       simp only [rtList_lc] at h1 h2 ⊢
       omega)
     (fun a b => by
       simp only [rtList_lc]
       omega)
     (some "-p") none _ ""
     (by decide)⟩

end CCWebui
